import Mathlib

/-!
# Layer-2 echo forwarding loops (DPDK)

A shallow embedding of the two forwarding programs of the repository,
`l2_multi_echo.cpp` (multi-core, `lcore_main_loop` and `main`) and
`l2_echo.cpp` (single-core, the packet loop of `main`), together with the
properties of one poll iteration: header mirroring, buffer conservation,
queue assignment and the order of the calls made to the port.

Conventions of the embedding.

* A `struct rte_mbuf *` is an `Option Nat`: `none` is `NULL`, `some b` points
  to buffer `b` of the heap `World.mem`.
* The packet bytes of a buffer are a total map from the byte offset (counted
  from `rte_pktmbuf_mtod`) to a byte; the Ethernet header occupies offsets
  `0..13` (`dst_addr` at `0..5`, `src_addr` at `6..11`, `ether_type` at
  `12..13`).
* The port is the environment.  What `rte_eth_rx_burst` wrote into `bufs` and
  returned, and what `rte_eth_tx_burst` returned, are arguments of an
  iteration; every call made to the port or to the pool is recorded, in
  program order, in a list of `Event`s.
* Dereferencing `NULL` and reading `bufs` out of bounds are undefined
  behaviour: the iteration then has no result (`none`).
-/

namespace L2Echo

/-! ## Constants -/

/-- Constant `#define RX_RING_SIZE 1024`. -/
def RX_RING_SIZE : Nat := 1024
/-- Constant `#define TX_RING_SIZE 1024`. -/
def TX_RING_SIZE : Nat := 1024
/-- Constant `#define NUM_MBUFS 8191`. -/
def NUM_MBUFS : Nat := 8191
/-- Constant `#define MBUF_CACHE_SIZE 250`. -/
def MBUF_CACHE_SIZE : Nat := 250
/-- Constant `#define BURST_SIZE 32`. -/
def BURST_SIZE : Nat := 32
/-- Constant `const uint16_t PORT_ID = 0`. -/
def PORT_ID : Nat := 0

/-! ## Data model -/

/-- A `uint8_t`. -/
abbrev Byte := Fin 256

/-- The DPDK type `struct rte_ether_addr`: the six bytes `addr_bytes[6]`. -/
@[ext]
structure rte_ether_addr where
  addr_bytes : Fin 6 → Byte

instance decEqEtherAddr : DecidableEq rte_ether_addr := fun a b =>
  decidable_of_iff (∀ j, a.addr_bytes j = b.addr_bytes j)
    ⟨fun h => rte_ether_addr.ext (funext h), fun h j => by rw [h]⟩

/-- Offset of `dst_addr` in `struct rte_ether_hdr`. -/
def DST_ADDR_OFF : Nat := 0
/-- Offset of `src_addr` in `struct rte_ether_hdr`. -/
def SRC_ADDR_OFF : Nat := 6
/-- Offset of `ether_type` in `struct rte_ether_hdr`. -/
def ETHER_TYPE_OFF : Nat := 12
/-- Size of `struct rte_ether_hdr`. -/
def ETHER_HDR_LEN : Nat := 14

/-- A packet buffer: the bytes reachable from `rte_pktmbuf_mtod` and the
length metadata. -/
structure rte_mbuf where
  data : Nat → Byte
  data_len : Nat
  pkt_len : Nat

/-- Read of a `struct rte_ether_addr` field located at byte offset `off` of
the packet data (the source of an `rte_ether_addr_copy`). -/
def load_addr (m : rte_mbuf) (off : Nat) : rte_ether_addr :=
  ⟨fun j => m.data (off + j.val)⟩

/-- Write of a `struct rte_ether_addr` into the field located at byte offset
`off` of the packet data (the destination of an `rte_ether_addr_copy`): the
six bytes `off .. off+5` are replaced, nothing else is. -/
def store_addr (m : rte_mbuf) (off : Nat) (a : rte_ether_addr) : rte_mbuf :=
  { m with data := fun o =>
      if h : off ≤ o ∧ o < off + 6 then a.addr_bytes ⟨o - off, by omega⟩ else m.data o }

/-- A `struct rte_mbuf *`; `none` is `NULL`. -/
abbrev MbufPtr := Option Nat

/-- The memory the loop works on and the pool's number of available
buffers. -/
structure World where
  mem : Nat → rte_mbuf
  pool_avail : Nat

/-- The calls a loop makes to the port and to the pool, and its stores into
packet memory. -/
inductive Event where
  | rx_burst (port_id queue_id nb_pkts : Nat)
  | hdr_store (buf : Nat) (off : Nat)
  | tx_burst (port_id queue_id : Nat) (tx_pkts : List MbufPtr)
  | pktmbuf_free (m : MbufPtr)
  deriving DecidableEq, Repr

/-- The state threaded through an iteration: the world and the events so far
(oldest first). -/
abbrev Exec := World × List Event

/-- An `rte_ether_addr_copy(&local, &eth_hdr->field)` on buffer `b`. -/
def World.store (w : World) (b : Nat) (off : Nat) (a : rte_ether_addr) : World :=
  { w with mem := Function.update w.mem b (store_addr (w.mem b) off a) }

/-- Modelled from the spec: the buffer pool is an external collaborator; a
receive event dequeues the received buffers from the pool's available set. -/
def World.rx_dequeue (w : World) (num_rx : Nat) : World :=
  { w with pool_avail := w.pool_avail - num_rx }

/-- Modelled from the spec: `rte_pktmbuf_free` releases one buffer back to the
pool; on `NULL` it does nothing. -/
def rte_pktmbuf_free (m : MbufPtr) (w : World) : World :=
  match m with
  | none => w
  | some _ => { w with pool_avail := w.pool_avail + 1 }

/-- The loop `for (uint16_t i = lo; i < hi; i++) { body(bufs[i]); }`.
Reading `bufs[i]` outside the array has no result. -/
def for_bufs (bufs : List MbufPtr) (lo hi : Nat)
    (body : Exec → MbufPtr → Option Exec) (s : Exec) : Option Exec :=
  (List.range' lo (hi - lo)).foldlM
    (fun s i => match bufs[i]? with
      | none => none
      | some p => body s p) s

/-! ## `l2_multi_echo.cpp` -/

/-- Body of the transform loop of `lcore_main_loop` (lines 70-76) on
`buf = bufs[i]`. -/
def transform_body (my_device : rte_ether_addr) (s : Exec) (buf : MbufPtr) : Option Exec :=
  match buf with
  | none => none
  | some b =>
    let temp_device := load_addr (s.1.mem b) SRC_ADDR_OFF
    let w1 := s.1.store b SRC_ADDR_OFF my_device
    let w2 := w1.store b DST_ADDR_OFF temp_device
    some (w2, s.2 ++ [Event.hdr_store b SRC_ADDR_OFF, Event.hdr_store b DST_ADDR_OFF])

/-- Body of the reclaim loop of `lcore_main_loop` (line 82):
`if (bufs[i]) rte_pktmbuf_free(bufs[i]);`. -/
def reclaim_body (s : Exec) (buf : MbufPtr) : Option Exec :=
  match buf with
  | none => some s
  | some b => some (rte_pktmbuf_free (some b) s.1, s.2 ++ [Event.pktmbuf_free (some b)])

/-- One iteration of the `while(1)` loop of `lcore_main_loop` (lines 58-85).
`bufs` and `num_rx` are what `rte_eth_rx_burst` left in the array and
returned, `num_tx` is what `rte_eth_tx_burst` returned. -/
def lcore_iteration (queue_id : Nat) (my_device : rte_ether_addr)
    (bufs : List MbufPtr) (num_rx num_tx : Nat) (w : World) : Option Exec :=
  let s0 : Exec := (w.rx_dequeue num_rx, [Event.rx_burst PORT_ID queue_id BURST_SIZE])
  if num_rx = 0 then
    some s0
  else
    match for_bufs bufs 0 num_rx (transform_body my_device) s0 with
    | none => none
    | some s1 =>
      let s2 : Exec := (s1.1, s1.2 ++ [Event.tx_burst PORT_ID queue_id (bufs.take num_rx)])
      if num_tx < num_rx then
        for_bufs bufs num_tx num_rx reclaim_body s2
      else
        some s2

/-- The responses of the port during one iteration. -/
structure Poll where
  bufs : List MbufPtr
  num_rx : Nat
  num_tx : Nat

/-- The queue index of `lcore_main_loop` (lines 46-47): the value of
`rte_lcore_id()` converted to `uint16_t`. -/
def queue_id_of (lcore : Nat) : Nat := lcore % 65536

/-- The forwarding loop `lcore_main_loop` on core `lcore`, run for as many
iterations as there are port responses (the loop itself never ends). -/
def lcore_main_loop (lcore : Nat) (my_device : rte_ether_addr) :
    List Poll → World → Option Exec
  | [], w => some (w, [])
  | p :: ps, w =>
    match lcore_iteration (queue_id_of lcore) my_device p.bufs p.num_rx p.num_tx w with
    | none => none
    | some s1 =>
      match lcore_main_loop lcore my_device ps s1.1 with
      | none => none
      | some s2 => some (s2.1, s1.2 ++ s2.2)

/-- The queue indices `main` sets up (lines 108-182): `nb_lcores` is
`rte_lcore_count()`, and the loop `for (queue_id = 0; queue_id < nb_lcores;
queue_id++)` provisions one receive and one transmit queue per index. -/
def provisioned_queues (nb_lcores : Nat) : List Nat := List.range nb_lcores

/-- The queue polled by each launched core: `rte_eal_mp_remote_launch(...,
CALL_MAIN)` runs `lcore_main_loop` once on every enabled lcore. -/
def polled_queues (lcores : List Nat) : List Nat := lcores.map queue_id_of

/-! ## `l2_echo.cpp` -/

/-- Body of the transform loop of the single-core `main` (lines 122-134). -/
def single_transform_body (my_mac : rte_ether_addr) (s : Exec) (buf : MbufPtr) : Option Exec :=
  match buf with
  | none => none
  | some b =>
    let temp_mac := load_addr (s.1.mem b) SRC_ADDR_OFF
    let w1 := s.1.store b SRC_ADDR_OFF my_mac
    let w2 := w1.store b SRC_ADDR_OFF temp_mac
    some (w2, s.2 ++ [Event.hdr_store b SRC_ADDR_OFF, Event.hdr_store b SRC_ADDR_OFF])

/-- Body of the reclaim loop of the single-core `main` (line 141):
`rte_pktmbuf_free(bufs[i]);`. -/
def single_reclaim_body (s : Exec) (buf : MbufPtr) : Option Exec :=
  some (rte_pktmbuf_free buf s.1, s.2 ++ [Event.pktmbuf_free buf])

/-- One iteration of the `for (;;)` loop of the single-core `main`
(lines 114-144). -/
def single_iteration (my_mac : rte_ether_addr)
    (bufs : List MbufPtr) (num_rx num_tx : Nat) (w : World) : Option Exec :=
  let s0 : Exec := (w.rx_dequeue num_rx, [Event.rx_burst PORT_ID 0 BURST_SIZE])
  if num_rx = 0 then
    some s0
  else
    match for_bufs bufs 0 num_rx (single_transform_body my_mac) s0 with
    | none => none
    | some s1 =>
      let s2 : Exec := (s1.1, s1.2 ++ [Event.tx_burst PORT_ID 0 (bufs.take num_rx)])
      if num_tx < num_rx then
        for_bufs bufs num_tx num_rx single_reclaim_body s2
      else
        some s2

/-! ## Vocabulary of the properties -/

/-- The field `eth_hdr->src_addr` of a buffer. -/
def src_addr (m : rte_mbuf) : rte_ether_addr := load_addr m SRC_ADDR_OFF

/-- The field `eth_hdr->dst_addr` of a buffer. -/
def dst_addr (m : rte_mbuf) : rte_ether_addr := load_addr m DST_ADDR_OFF

/-- The bytes a buffer has after lines 74-76 of `l2_multi_echo.cpp` ran on it
once. -/
def mirror_hdr (my_device : rte_ether_addr) (m : rte_mbuf) : rte_mbuf :=
  store_addr (store_addr m SRC_ADDR_OFF my_device) DST_ADDR_OFF (load_addr m SRC_ADDR_OFF)

/-- The bytes a buffer has after lines 132-134 of `l2_echo.cpp` ran on it
once. -/
def single_hdr (my_mac : rte_ether_addr) (m : rte_mbuf) : rte_mbuf :=
  store_addr (store_addr m SRC_ADDR_OFF my_mac) SRC_ADDR_OFF (load_addr m SRC_ADDR_OFF)

/-- What `rte_eth_rx_burst(PORT_ID, queue, bufs, BURST_SIZE)` guarantees about
the `num_rx` it returns and the array it filled: at most `BURST_SIZE` entries,
inside the array, none of them `NULL`, and pairwise distinct buffers. -/
def RxBurst (bufs : List MbufPtr) (num_rx : Nat) : Prop :=
  num_rx ≤ BURST_SIZE ∧ num_rx ≤ bufs.length ∧
    (∀ p ∈ bufs.take num_rx, p ≠ none) ∧ (bufs.take num_rx).Nodup

instance decRxBurst (bufs : List MbufPtr) (num_rx : Nat) : Decidable (RxBurst bufs num_rx) := by
  unfold RxBurst; infer_instance

/-- The header stores, at the offsets `offs`, made on each buffer of a list. -/
def hdr_events (offs : List Nat) : List MbufPtr → List Event
  | [] => []
  | none :: ps => hdr_events offs ps
  | some b :: ps => offs.map (Event.hdr_store b) ++ hdr_events offs ps

/-- The buffers released to the pool in a list of events, in order. -/
def released : List Event → List Nat
  | [] => []
  | Event.pktmbuf_free (some b) :: es => b :: released es
  | _ :: es => released es

/-- The `rte_eth_tx_burst` calls of a list of events: queue index and the
buffers submitted. -/
def tx_calls : List Event → List (Nat × List MbufPtr)
  | [] => []
  | Event.tx_burst _ q ps :: es => (q, ps) :: tx_calls es
  | _ :: es => tx_calls es

/-- The `rte_eth_rx_burst` calls of a list of events: the queue indices. -/
def rx_calls : List Event → List Nat
  | [] => []
  | Event.rx_burst _ q _ :: es => q :: rx_calls es
  | _ :: es => rx_calls es

/-- The buffers whose header is stored into in a list of events. -/
def stored : List Event → List Nat
  | [] => []
  | Event.hdr_store b _ :: es => b :: stored es
  | _ :: es => stored es

/-- The heap after `f` was applied once to every buffer among the first
`num_rx` entries of `bufs`. -/
def mem_after (f : rte_mbuf → rte_mbuf) (bufs : List MbufPtr) (num_rx : Nat)
    (mem : Nat → rte_mbuf) : Nat → rte_mbuf :=
  fun h => if some h ∈ bufs.take num_rx then f (mem h) else mem h

/-- Buffer conservation of one iteration, read off its events `es`: with
`n` buffers received and `k` accepted by transmit, the buffers released are
exactly those at burst positions `k .. n-1` in that order, there are `n - k` of
them, accepted plus released is received, none is released twice, and no buffer
at a position below `k` is released. -/
def Conserved (bufs : List MbufPtr) (n k : Nat) (es : List Event) : Prop :=
  (released es).map some = (bufs.take n).drop k ∧
  (released es).length = n - k ∧
  k + (released es).length = n ∧
  (released es).Nodup ∧
  ∀ i, i < k → ∀ b, bufs[i]? = some (some b) → b ∉ released es

/-! ## Concrete inputs -/

/-- A device address, `02:00:00:00:00:01`. -/
def mac0 : rte_ether_addr := ⟨fun j => if j.val = 0 then 2 else if j.val = 5 then 1 else 0⟩

/-- A frame with destination `aa:aa:aa:aa:aa:aa`, source `bb:bb:bb:bb:bb:bb`,
EtherType `0x0800` and a zero payload, 64 bytes long. -/
def pkt0 : rte_mbuf :=
  { data := fun o => if o < 6 then 0xaa else if o < 12 then 0xbb else if o = 12 then 0x08 else 0
    data_len := 64
    pkt_len := 64 }

/-- A world in which every buffer holds `pkt0` and the pool has `NUM_MBUFS`
available buffers. -/
def w0 : World := { mem := fun _ => pkt0, pool_avail := NUM_MBUFS }

/-- A full burst: the buffers `1 .. 32`. -/
def burst32 : List MbufPtr := (List.range' 1 32).map some

/-! ## Loops as folds over the burst -/

theorem foldlM_range'_eq (bufs : List MbufPtr) (body : Exec → MbufPtr → Option Exec) :
    ∀ (n lo : Nat) (s : Exec), lo + n ≤ bufs.length →
      (List.range' lo n).foldlM
        (fun s i => match bufs[i]? with
          | none => none
          | some p => body s p) s
      = ((bufs.drop lo).take n).foldlM body s := by
  intro n
  induction n with
  | zero => intro lo s _; simp
  | succ n ih =>
    intro lo s h
    have hlt : lo < bufs.length := by omega
    rw [List.range'_succ, List.drop_eq_getElem_cons hlt, List.take_succ_cons]
    simp only [List.foldlM_cons, List.getElem?_eq_getElem hlt]
    cases hb : body s bufs[lo] with
    | none => rfl
    | some s1 =>
      simp only [Option.bind_eq_bind, Option.some_bind]
      exact ih (lo + 1) s1 (by omega)

theorem for_bufs_eq (bufs : List MbufPtr) (lo hi : Nat)
    (body : Exec → MbufPtr → Option Exec) (s : Exec) (h : hi ≤ bufs.length) :
    for_bufs bufs lo hi body s = ((bufs.take hi).drop lo).foldlM body s := by
  unfold for_bufs
  by_cases hlo : lo ≤ hi
  · rw [foldlM_range'_eq bufs body (hi - lo) lo s (by omega), List.drop_take]
  · have h0 : hi - lo = 0 := by omega
    have h1 : (bufs.take hi).drop lo = [] := by
      apply List.drop_eq_nil_of_le
      simp; omega
    rw [h0, h1]; rfl

theorem transform_body_some (my_device : rte_ether_addr) (s : Exec) (b : Nat) :
    transform_body my_device s (some b)
      = some ({ s.1 with mem := Function.update s.1.mem b (mirror_hdr my_device (s.1.mem b)) },
          s.2 ++ [SRC_ADDR_OFF, DST_ADDR_OFF].map (Event.hdr_store b)) := by
  simp [transform_body, World.store, mirror_hdr]

theorem single_transform_body_some (my_mac : rte_ether_addr) (s : Exec) (b : Nat) :
    single_transform_body my_mac s (some b)
      = some ({ s.1 with mem := Function.update s.1.mem b (single_hdr my_mac (s.1.mem b)) },
          s.2 ++ [SRC_ADDR_OFF, SRC_ADDR_OFF].map (Event.hdr_store b)) := by
  simp [single_transform_body, World.store, single_hdr]

theorem foldlM_hdr_update (f : rte_mbuf → rte_mbuf) (offs : List Nat)
    (body : Exec → MbufPtr → Option Exec)
    (hbody : ∀ (s : Exec) (b : Nat), body s (some b)
      = some ({ s.1 with mem := Function.update s.1.mem b (f (s.1.mem b)) },
          s.2 ++ offs.map (Event.hdr_store b))) :
    ∀ (ps : List MbufPtr) (s : Exec), (∀ p ∈ ps, p ≠ none) → ps.Nodup →
      ps.foldlM body s
        = some ({ s.1 with mem := fun h => if some h ∈ ps then f (s.1.mem h) else s.1.mem h },
            s.2 ++ hdr_events offs ps) := by
  intro ps
  induction ps with
  | nil => intro s _ _; simp [hdr_events]
  | cons p ps ih =>
    intro s hnn hnd
    cases p with
    | none => exact absurd rfl (hnn none (List.mem_cons_self _ _))
    | some b =>
      obtain ⟨hb, hnd'⟩ := List.nodup_cons.mp hnd
      rw [List.foldlM_cons, hbody]
      simp only [Option.bind_eq_bind, Option.some_bind]
      rw [ih _ (fun q hq => hnn q (List.mem_cons_of_mem _ hq)) hnd']
      simp only [hdr_events, List.append_assoc, Option.some.injEq, Prod.mk.injEq, and_true]
      congr 1
      funext h
      by_cases hh : h = b
      · subst hh
        simp [hb]
      · have hne : (some h : MbufPtr) ≠ some b := fun e => hh (Option.some.inj e)
        simp [Function.update_noteq hh, hne]

theorem foldlM_reclaim (ps : List MbufPtr) :
    ∀ (s : Exec), (∀ p ∈ ps, p ≠ none) →
      ps.foldlM reclaim_body s
        = some ({ s.1 with pool_avail := s.1.pool_avail + ps.length },
            s.2 ++ ps.map Event.pktmbuf_free) := by
  induction ps with
  | nil => intro s _; simp
  | cons p ps ih =>
    intro s hnn
    cases p with
    | none => exact absurd rfl (hnn none (List.mem_cons_self _ _))
    | some b =>
      rw [List.foldlM_cons]
      simp only [reclaim_body, rte_pktmbuf_free, Option.bind_eq_bind, Option.some_bind]
      rw [ih _ (fun q hq => hnn q (List.mem_cons_of_mem _ hq))]
      simp [Nat.add_assoc, Nat.add_comm 1]

theorem foldlM_single_reclaim (ps : List MbufPtr) :
    ∀ (s : Exec), (∀ p ∈ ps, p ≠ none) →
      ps.foldlM single_reclaim_body s
        = some ({ s.1 with pool_avail := s.1.pool_avail + ps.length },
            s.2 ++ ps.map Event.pktmbuf_free) := by
  induction ps with
  | nil => intro s _; simp
  | cons p ps ih =>
    intro s hnn
    cases p with
    | none => exact absurd rfl (hnn none (List.mem_cons_self _ _))
    | some b =>
      rw [List.foldlM_cons]
      simp only [single_reclaim_body, rte_pktmbuf_free, Option.bind_eq_bind, Option.some_bind]
      rw [ih _ (fun q hq => hnn q (List.mem_cons_of_mem _ hq))]
      simp [Nat.add_assoc, Nat.add_comm 1]

/-! ## Closed form of one iteration -/

theorem lcore_iteration_zero (q : Nat) (my_device : rte_ether_addr) (bufs : List MbufPtr)
    (k : Nat) (w : World) :
    lcore_iteration q my_device bufs 0 k w
      = some (w, [Event.rx_burst PORT_ID q BURST_SIZE]) := by
  simp [lcore_iteration, World.rx_dequeue]

theorem single_iteration_zero (my_mac : rte_ether_addr) (bufs : List MbufPtr)
    (k : Nat) (w : World) :
    single_iteration my_mac bufs 0 k w
      = some (w, [Event.rx_burst PORT_ID 0 BURST_SIZE]) := by
  simp [single_iteration, World.rx_dequeue]

theorem lcore_iteration_eq (q : Nat) (my_device : rte_ether_addr) (bufs : List MbufPtr)
    (n k : Nat) (w : World) (h : RxBurst bufs n) (hn : 0 < n) :
    lcore_iteration q my_device bufs n k w
      = some (⟨mem_after (mirror_hdr my_device) bufs n w.mem, w.pool_avail - n + (n - k)⟩,
          Event.rx_burst PORT_ID q BURST_SIZE ::
            (hdr_events [SRC_ADDR_OFF, DST_ADDR_OFF] (bufs.take n) ++
              Event.tx_burst PORT_ID q (bufs.take n) ::
                ((bufs.take n).drop k).map Event.pktmbuf_free)) := by
  obtain ⟨_, hlen, hnn, hnd⟩ := h
  have hn0 : n ≠ 0 := by omega
  have hdrop : ∀ p ∈ (bufs.take n).drop k, p ≠ none :=
    fun p hp => hnn p (List.mem_of_mem_drop hp)
  have hl : ((bufs.take n).drop k).length = n - k := by
    simp [Nat.min_eq_left hlen]
  unfold lcore_iteration
  simp only [hn0, if_false]
  rw [for_bufs_eq bufs 0 n _ _ hlen, List.drop_zero,
    foldlM_hdr_update (mirror_hdr my_device) [SRC_ADDR_OFF, DST_ADDR_OFF]
      (transform_body my_device) (transform_body_some my_device) _ _ hnn hnd]
  by_cases hk : k < n
  · simp only [hk, if_true]
    rw [for_bufs_eq bufs k n _ _ hlen, foldlM_reclaim _ _ hdrop, hl]
    simp [World.rx_dequeue]
    rfl
  · have h0 : n - k = 0 := by omega
    have h1 : (bufs.take n).drop k = [] := by
      apply List.drop_eq_nil_of_le
      simp; omega
    simp [hk, h0, h1, World.rx_dequeue]
    rfl

theorem single_iteration_eq (my_mac : rte_ether_addr) (bufs : List MbufPtr)
    (n k : Nat) (w : World) (h : RxBurst bufs n) (hn : 0 < n) :
    single_iteration my_mac bufs n k w
      = some (⟨mem_after (single_hdr my_mac) bufs n w.mem, w.pool_avail - n + (n - k)⟩,
          Event.rx_burst PORT_ID 0 BURST_SIZE ::
            (hdr_events [SRC_ADDR_OFF, SRC_ADDR_OFF] (bufs.take n) ++
              Event.tx_burst PORT_ID 0 (bufs.take n) ::
                ((bufs.take n).drop k).map Event.pktmbuf_free)) := by
  obtain ⟨_, hlen, hnn, hnd⟩ := h
  have hn0 : n ≠ 0 := by omega
  have hdrop : ∀ p ∈ (bufs.take n).drop k, p ≠ none :=
    fun p hp => hnn p (List.mem_of_mem_drop hp)
  have hl : ((bufs.take n).drop k).length = n - k := by
    simp [Nat.min_eq_left hlen]
  unfold single_iteration
  simp only [hn0, if_false]
  rw [for_bufs_eq bufs 0 n _ _ hlen, List.drop_zero,
    foldlM_hdr_update (single_hdr my_mac) [SRC_ADDR_OFF, SRC_ADDR_OFF]
      (single_transform_body my_mac) (single_transform_body_some my_mac) _ _ hnn hnd]
  by_cases hk : k < n
  · simp only [hk, if_true]
    rw [for_bufs_eq bufs k n _ _ hlen, foldlM_single_reclaim _ _ hdrop, hl]
    simp [World.rx_dequeue]
    rfl
  · have h0 : n - k = 0 := by omega
    have h1 : (bufs.take n).drop k = [] := by
      apply List.drop_eq_nil_of_le
      simp; omega
    simp [hk, h0, h1, World.rx_dequeue]
    rfl

/-! ## Byte-level facts about the header rewrite -/

theorem src_addr_mirror_hdr (my_device : rte_ether_addr) (m : rte_mbuf) :
    src_addr (mirror_hdr my_device m) = my_device := by
  ext j
  have hj : 6 + j.val < 12 := by omega
  simp [src_addr, mirror_hdr, load_addr, store_addr, SRC_ADDR_OFF, DST_ADDR_OFF, hj]

theorem dst_addr_mirror_hdr (my_device : rte_ether_addr) (m : rte_mbuf) :
    dst_addr (mirror_hdr my_device m) = src_addr m := by
  ext j
  have hj := j.isLt
  simp [dst_addr, src_addr, mirror_hdr, load_addr, store_addr, SRC_ADDR_OFF, DST_ADDR_OFF]

theorem data_mirror_hdr (my_device : rte_ether_addr) (m : rte_mbuf) (o : Nat) (ho : 12 ≤ o) :
    (mirror_hdr my_device m).data o = m.data o := by
  have h1 : ¬ o < 6 := by omega
  have h2 : ¬ (6 ≤ o ∧ o < 6 + 6) := by omega
  simp [mirror_hdr, store_addr, SRC_ADDR_OFF, DST_ADDR_OFF, h1, h2]

theorem len_mirror_hdr (my_device : rte_ether_addr) (m : rte_mbuf) :
    (mirror_hdr my_device m).data_len = m.data_len ∧
      (mirror_hdr my_device m).pkt_len = m.pkt_len := by
  simp [mirror_hdr, store_addr]

theorem single_hdr_id (my_mac : rte_ether_addr) (m : rte_mbuf) : single_hdr my_mac m = m := by
  cases m with
  | mk data data_len pkt_len =>
    simp only [single_hdr, store_addr, load_addr, SRC_ADDR_OFF, rte_mbuf.mk.injEq, and_true]
    funext o
    by_cases h : 6 ≤ o ∧ o < 6 + 6
    · simp [h, Nat.add_sub_cancel' h.1]
    · simp [h]

/-! ## The transform loop -/

theorem transform_loop_eq (my_device : rte_ether_addr) (bufs : List MbufPtr) (n : Nat)
    (s : Exec) (h : RxBurst bufs n) :
    for_bufs bufs 0 n (transform_body my_device) s
      = some ({ s.1 with mem := mem_after (mirror_hdr my_device) bufs n s.1.mem },
          s.2 ++ hdr_events [SRC_ADDR_OFF, DST_ADDR_OFF] (bufs.take n)) := by
  obtain ⟨_, hlen, hnn, hnd⟩ := h
  rw [for_bufs_eq bufs 0 n _ _ hlen, List.drop_zero,
    foldlM_hdr_update (mirror_hdr my_device) [SRC_ADDR_OFF, DST_ADDR_OFF]
      (transform_body my_device) (transform_body_some my_device) _ _ hnn hnd]
  rfl

theorem RxBurst.entry {bufs : List MbufPtr} {n : Nat} (h : RxBurst bufs n) {i : Nat}
    (hi : i < n) : ∃ b, bufs[i]? = some (some b) ∧ some b ∈ bufs.take n := by
  obtain ⟨_, hlen, hnn, _⟩ := h
  have hil : i < bufs.length := by omega
  have hmem : bufs[i] ∈ bufs.take n :=
    List.mem_take_iff_getElem.mpr ⟨i, by simp [hi, hil], rfl⟩
  cases hb : bufs[i] with
  | none => exact absurd hb (hnn _ hmem)
  | some b =>
    refine ⟨b, ?_, ?_⟩
    · rw [List.getElem?_eq_getElem hil, hb]
    · rw [← hb]; exact hmem

theorem mem_after_of_mem (f : rte_mbuf → rte_mbuf) (bufs : List MbufPtr) (n : Nat)
    (mem : Nat → rte_mbuf) (b : Nat) (hb : some b ∈ bufs.take n) :
    mem_after f bufs n mem b = f (mem b) := by
  simp [mem_after, hb]

theorem mem_after_of_not_mem (f : rte_mbuf → rte_mbuf) (bufs : List MbufPtr) (n : Nat)
    (mem : Nat → rte_mbuf) (b : Nat) (hb : some b ∉ bufs.take n) :
    mem_after f bufs n mem b = mem b := by
  simp [mem_after, hb]

/-- C1, mirror invariant of the multi-core Transform: for a received burst
(`num_rx` entries, at most `BURST_SIZE`, non-null and distinct), the transform
loop of `lcore_main_loop` returns, and afterwards every buffer `bufs[i]` with
`i < num_rx` has source address equal to the device address and destination
address equal to the source address it had before the loop. -/
theorem mirror_invariant (my_device : rte_ether_addr) (bufs : List MbufPtr) (n : Nat)
    (s : Exec) (h : RxBurst bufs n) :
    ∃ s1, for_bufs bufs 0 n (transform_body my_device) s = some s1 ∧
      ∀ i, i < n → ∃ b, bufs[i]? = some (some b) ∧
        src_addr (s1.1.mem b) = my_device ∧
        dst_addr (s1.1.mem b) = src_addr (s.1.mem b) := by
  refine ⟨_, transform_loop_eq my_device bufs n s h, ?_⟩
  intro i hi
  obtain ⟨b, hb, hmem⟩ := h.entry hi
  refine ⟨b, hb, ?_, ?_⟩
  · show src_addr (mem_after (mirror_hdr my_device) bufs n s.1.mem b) = my_device
    rw [mem_after_of_mem _ _ _ _ _ hmem, src_addr_mirror_hdr]
  · show dst_addr (mem_after (mirror_hdr my_device) bufs n s.1.mem b) = src_addr (s.1.mem b)
    rw [mem_after_of_mem _ _ _ _ _ hmem, dst_addr_mirror_hdr]

/-- Witness of `mirror_invariant` on a burst of two buffers. -/
theorem mirror_invariant_witness :
    RxBurst [some 1, some 2] 2 ∧
    ∃ s1, for_bufs [some 1, some 2] 0 2 (transform_body mac0) (w0, []) = some s1 ∧
      ∀ i, i < 2 → ∃ b, [some 1, some 2][i]? = some (some b) ∧
        src_addr (s1.1.mem b) = mac0 ∧
        dst_addr (s1.1.mem b) = src_addr ((w0, ([] : List Event)).1.mem b) :=
  ⟨by decide, mirror_invariant mac0 [some 1, some 2] 2 (w0, []) (by decide)⟩

/-! ## Projections of a trace -/

theorem released_append (es fs : List Event) :
    released (es ++ fs) = released es ++ released fs := by
  induction es with
  | nil => rfl
  | cons e es ih =>
    cases e with
    | pktmbuf_free m => cases m <;> simp [released, ih]
    | _ => simp [released, ih]

theorem tx_calls_append (es fs : List Event) :
    tx_calls (es ++ fs) = tx_calls es ++ tx_calls fs := by
  induction es with
  | nil => rfl
  | cons e es ih => cases e <;> simp [tx_calls, ih]

theorem rx_calls_append (es fs : List Event) :
    rx_calls (es ++ fs) = rx_calls es ++ rx_calls fs := by
  induction es with
  | nil => rfl
  | cons e es ih => cases e <;> simp [rx_calls, ih]

theorem stored_append (es fs : List Event) :
    stored (es ++ fs) = stored es ++ stored fs := by
  induction es with
  | nil => rfl
  | cons e es ih => cases e <;> simp [stored, ih]

theorem released_hdr_store (b : Nat) (offs : List Nat) :
    released (offs.map (Event.hdr_store b)) = [] := by
  induction offs with
  | nil => rfl
  | cons o offs ih => simp [released, ih]

theorem tx_calls_hdr_store (b : Nat) (offs : List Nat) :
    tx_calls (offs.map (Event.hdr_store b)) = [] := by
  induction offs with
  | nil => rfl
  | cons o offs ih => simp [tx_calls, ih]

theorem rx_calls_hdr_store (b : Nat) (offs : List Nat) :
    rx_calls (offs.map (Event.hdr_store b)) = [] := by
  induction offs with
  | nil => rfl
  | cons o offs ih => simp [rx_calls, ih]

theorem released_hdr_events (offs : List Nat) (ps : List MbufPtr) :
    released (hdr_events offs ps) = [] := by
  induction ps with
  | nil => rfl
  | cons p ps ih =>
    cases p with
    | none => simpa [hdr_events] using ih
    | some b => simp [hdr_events, released_append, released_hdr_store, ih]

theorem tx_calls_hdr_events (offs : List Nat) (ps : List MbufPtr) :
    tx_calls (hdr_events offs ps) = [] := by
  induction ps with
  | nil => rfl
  | cons p ps ih =>
    cases p with
    | none => simpa [hdr_events] using ih
    | some b => simp [hdr_events, tx_calls_append, tx_calls_hdr_store, ih]

theorem rx_calls_hdr_events (offs : List Nat) (ps : List MbufPtr) :
    rx_calls (hdr_events offs ps) = [] := by
  induction ps with
  | nil => rfl
  | cons p ps ih =>
    cases p with
    | none => simpa [hdr_events] using ih
    | some b => simp [hdr_events, rx_calls_append, rx_calls_hdr_store, ih]

theorem stored_hdr_events (ps : List MbufPtr) (o1 o2 : Nat) (b : Nat) (hb : some b ∈ ps) :
    b ∈ stored (hdr_events [o1, o2] ps) := by
  induction ps with
  | nil => cases hb
  | cons p ps ih =>
    cases p with
    | none =>
      have hb' : some b ∈ ps := by simpa using hb
      simpa [hdr_events] using ih hb'
    | some c =>
      rcases List.mem_cons.mp hb with h | h
      · cases h
        simp [hdr_events, stored]
      · simp [hdr_events, stored, ih h]

theorem released_map_free (ps : List MbufPtr) (h : ∀ p ∈ ps, p ≠ none) :
    (released (ps.map Event.pktmbuf_free)).map some = ps := by
  induction ps with
  | nil => rfl
  | cons p ps ih =>
    cases p with
    | none => exact absurd rfl (h none (List.mem_cons_self _ _))
    | some b =>
      simp [released, ih (fun q hq => h q (List.mem_cons_of_mem _ hq))]

theorem tx_calls_map_free (ps : List MbufPtr) :
    tx_calls (ps.map Event.pktmbuf_free) = [] := by
  induction ps with
  | nil => rfl
  | cons p ps ih => simp [tx_calls, ih]

theorem rx_calls_map_free (ps : List MbufPtr) :
    rx_calls (ps.map Event.pktmbuf_free) = [] := by
  induction ps with
  | nil => rfl
  | cons p ps ih => simp [rx_calls, ih]

theorem stored_map_free (ps : List MbufPtr) :
    stored (ps.map Event.pktmbuf_free) = [] := by
  induction ps with
  | nil => rfl
  | cons p ps ih => simp [stored, ih]

/-! ## Buffer conservation -/

theorem conserved_of_released (bufs : List MbufPtr) (n k : Nat) (es : List Event)
    (h : RxBurst bufs n) (hk : k ≤ n)
    (hrel : (released es).map some = (bufs.take n).drop k) : Conserved bufs n k es := by
  obtain ⟨_, hlen, _, hnd⟩ := h
  have hl : (released es).length = n - k := by
    have := congrArg List.length hrel
    simpa [Nat.min_eq_left hlen] using this
  refine ⟨hrel, hl, by omega, ?_, ?_⟩
  · apply List.Nodup.of_map some
    rw [hrel]
    exact List.Nodup.sublist (List.drop_sublist _ _) hnd
  · intro i hi b hb hmem
    have h1 : some b ∈ (bufs.take n).drop k := by
      rw [← hrel]; exact List.mem_map_of_mem some hmem
    have h2 : some b ∈ (bufs.take n).take k := by
      apply List.mem_iff_getElem?.mpr
      refine ⟨i, ?_⟩
      rw [List.getElem?_take_of_lt hi, List.getElem?_take_of_lt (by omega), hb]
    exact List.disjoint_take_drop hnd (Nat.le_refl k) h2 h1

theorem lcore_iteration_released (q : Nat) (my_device : rte_ether_addr) (bufs : List MbufPtr)
    (n k : Nat) (w : World) (h : RxBurst bufs n) :
    ∃ s, lcore_iteration q my_device bufs n k w = some s ∧
      (released s.2).map some = (bufs.take n).drop k := by
  rcases Nat.eq_zero_or_pos n with h0 | hn
  · subst h0
    exact ⟨_, lcore_iteration_zero q my_device bufs k w, by simp [released]⟩
  · refine ⟨_, lcore_iteration_eq q my_device bufs n k w h hn, ?_⟩
    have hdrop : ∀ p ∈ (bufs.take n).drop k, p ≠ none :=
      fun p hp => h.2.2.1 p (List.mem_of_mem_drop hp)
    have e : ∀ (a : Event) (l : List Event), a :: l = [a] ++ l := fun _ _ => rfl
    simp only [released]
    rw [released_append, released_hdr_events, e (Event.tx_burst _ _ _), released_append]
    simpa [released] using released_map_free _ hdrop

theorem single_iteration_released (my_mac : rte_ether_addr) (bufs : List MbufPtr)
    (n k : Nat) (w : World) (h : RxBurst bufs n) :
    ∃ s, single_iteration my_mac bufs n k w = some s ∧
      (released s.2).map some = (bufs.take n).drop k := by
  rcases Nat.eq_zero_or_pos n with h0 | hn
  · subst h0
    exact ⟨_, single_iteration_zero my_mac bufs k w, by simp [released]⟩
  · refine ⟨_, single_iteration_eq my_mac bufs n k w h hn, ?_⟩
    have hdrop : ∀ p ∈ (bufs.take n).drop k, p ≠ none :=
      fun p hp => h.2.2.1 p (List.mem_of_mem_drop hp)
    have e : ∀ (a : Event) (l : List Event), a :: l = [a] ++ l := fun _ _ => rfl
    simp only [released]
    rw [released_append, released_hdr_events, e (Event.tx_burst _ _ _), released_append]
    simpa [released] using released_map_free _ hdrop

/-- C2, buffer conservation per poll iteration, for the multi-core loop and for
the single-core loop: when receive-burst returned `n` buffers (a received
burst: at most `BURST_SIZE`, non-null, distinct) and transmit-burst returned
`k ≤ n`, the iteration returns and the buffers it released are exactly those at
positions `k .. n-1`, `n - k` of them, so accepted + reclaimed = received; each
is released once and none of the accepted positions below `k` is released. -/
theorem buffer_conservation (q : Nat) (my_device : rte_ether_addr) (bufs : List MbufPtr)
    (n k : Nat) (w : World) (h : RxBurst bufs n) (hk : k ≤ n) :
    (∃ s, lcore_iteration q my_device bufs n k w = some s ∧ Conserved bufs n k s.2) ∧
    (∃ s, single_iteration my_device bufs n k w = some s ∧ Conserved bufs n k s.2) := by
  obtain ⟨s, hs, hrel⟩ := lcore_iteration_released q my_device bufs n k w h
  obtain ⟨t, ht, hrel'⟩ := single_iteration_released my_device bufs n k w h
  exact ⟨⟨s, hs, conserved_of_released bufs n k s.2 h hk hrel⟩,
    ⟨t, ht, conserved_of_released bufs n k t.2 h hk hrel'⟩⟩

/-- Witness of `buffer_conservation`: three buffers received, one accepted. -/
theorem buffer_conservation_witness :
    RxBurst [some 1, some 2, some 3] 3 ∧ 1 ≤ 3 ∧
    (∃ s, lcore_iteration 0 mac0 [some 1, some 2, some 3] 3 1 w0 = some s ∧
      Conserved [some 1, some 2, some 3] 3 1 s.2) ∧
    (∃ s, single_iteration mac0 [some 1, some 2, some 3] 3 1 w0 = some s ∧
      Conserved [some 1, some 2, some 3] 3 1 s.2) :=
  ⟨by decide, by decide,
    buffer_conservation 0 mac0 [some 1, some 2, some 3] 3 1 w0 (by decide) (by decide)⟩

/-! ## Zero-length receive burst -/

/-- C5, a zero-length receive burst is a no-op iteration: in both loops, from
every state and whatever the array holds, an iteration whose receive-burst
returned 0 returns with the state it started from; its only event is the
receive-burst call, so it stores into no header, calls transmit-burst not at
all and releases no buffer. -/
theorem zero_rx_is_noop (q : Nat) (my_device : rte_ether_addr) (bufs : List MbufPtr)
    (k : Nat) (w : World) :
    (∃ s, lcore_iteration q my_device bufs 0 k w = some s ∧ s.1 = w ∧
      s.2 = [Event.rx_burst PORT_ID q BURST_SIZE] ∧
      stored s.2 = [] ∧ tx_calls s.2 = [] ∧ released s.2 = []) ∧
    (∃ s, single_iteration my_device bufs 0 k w = some s ∧ s.1 = w ∧
      s.2 = [Event.rx_burst PORT_ID 0 BURST_SIZE] ∧
      stored s.2 = [] ∧ tx_calls s.2 = [] ∧ released s.2 = []) :=
  ⟨⟨_, lcore_iteration_zero q my_device bufs k w, rfl, rfl, rfl, rfl, rfl⟩,
    ⟨_, single_iteration_zero my_device bufs k w, rfl, rfl, rfl, rfl, rfl⟩⟩

/-! ## Pool accounting -/

/-- C6, pool accounting under transmit backpressure: when receive-burst
dequeued `n` buffers from a pool that had them and transmit-burst accepted
`k ≤ n`, the multi-core iteration returns, exactly `n - k` buffers were
released, the pool's available count is the one before minus `k`, and the `k`
accepted buffers carry mirrored headers. -/
theorem pool_accounting (q : Nat) (my_device : rte_ether_addr) (bufs : List MbufPtr)
    (n k : Nat) (w : World) (h : RxBurst bufs n) (hk : k ≤ n) (hp : n ≤ w.pool_avail) :
    ∃ s, lcore_iteration q my_device bufs n k w = some s ∧
      (released s.2).length = n - k ∧
      s.1.pool_avail = w.pool_avail - k ∧
      ∀ i, i < k → ∃ b, bufs[i]? = some (some b) ∧
        src_addr (s.1.mem b) = my_device ∧
        dst_addr (s.1.mem b) = src_addr (w.mem b) := by
  obtain ⟨s, hs, hrel⟩ := lcore_iteration_released q my_device bufs n k w h
  have hc := conserved_of_released bufs n k s.2 h hk hrel
  refine ⟨s, hs, hc.2.1, ?_, ?_⟩
  · rcases Nat.eq_zero_or_pos n with h0 | hn
    · subst h0
      have := lcore_iteration_zero q my_device bufs k w
      rw [hs] at this
      have hk0 : k = 0 := by omega
      rw [Option.some.inj this, hk0]; rfl
    · have := lcore_iteration_eq q my_device bufs n k w h hn
      rw [hs] at this
      rw [Option.some.inj this]
      show w.pool_avail - n + (n - k) = w.pool_avail - k
      omega
  · intro i hi
    have hn : 0 < n := by omega
    obtain ⟨b, hb, hmem⟩ := h.entry (Nat.lt_of_lt_of_le hi hk)
    have := lcore_iteration_eq q my_device bufs n k w h hn
    rw [hs] at this
    rw [Option.some.inj this]
    refine ⟨b, hb, ?_, ?_⟩
    · show src_addr (mem_after (mirror_hdr my_device) bufs n w.mem b) = my_device
      rw [mem_after_of_mem _ _ _ _ _ hmem, src_addr_mirror_hdr]
    · show dst_addr (mem_after (mirror_hdr my_device) bufs n w.mem b) = src_addr (w.mem b)
      rw [mem_after_of_mem _ _ _ _ _ hmem, dst_addr_mirror_hdr]

/-- Witness of `pool_accounting`, the scenario of the specification: 32
buffers received, 20 accepted, so 12 released and 20 fewer available. -/
theorem pool_accounting_witness :
    RxBurst burst32 32 ∧ 20 ≤ 32 ∧ 32 ≤ w0.pool_avail ∧
    ∃ s, lcore_iteration 0 mac0 burst32 32 20 w0 = some s ∧
      (released s.2).length = 12 ∧
      s.1.pool_avail = w0.pool_avail - 20 ∧
      ∀ i, i < 20 → ∃ b, burst32[i]? = some (some b) ∧
        src_addr (s.1.mem b) = mac0 ∧
        dst_addr (s.1.mem b) = src_addr (w0.mem b) :=
  ⟨by decide, by decide, by decide,
    pool_accounting 0 mac0 burst32 32 20 w0 (by decide) (by decide) (by decide)⟩

/-! ## Mirroring twice -/

theorem transform_body_mem (my_device : rte_ether_addr) (s : Exec) (b : Nat) :
    ∃ s1, transform_body my_device s (some b) = some s1 ∧
      s1.1.mem b = mirror_hdr my_device (s.1.mem b) := by
  refine ⟨_, transform_body_some my_device s b, ?_⟩
  simp

/-- C7, mirroring is one-shot and not a round trip: running the multi-core
Transform twice on the same buffer with the same device address leaves both
the source and the destination address equal to the device address, so the
original pair of addresses comes back exactly when both were the device
address already; and there is a header, `pkt0`, that two runs do not
restore. -/
theorem mirror_twice_not_round_trip :
    (∀ (my_device : rte_ether_addr) (s : Exec) (b : Nat),
      ∃ s1 s2, transform_body my_device s (some b) = some s1 ∧
        transform_body my_device s1 (some b) = some s2 ∧
        src_addr (s2.1.mem b) = my_device ∧
        dst_addr (s2.1.mem b) = my_device ∧
        ((src_addr (s2.1.mem b) = src_addr (s.1.mem b) ∧
            dst_addr (s2.1.mem b) = dst_addr (s.1.mem b)) ↔
          (src_addr (s.1.mem b) = my_device ∧ dst_addr (s.1.mem b) = my_device))) ∧
    (∃ s1 s2, transform_body mac0 (w0, []) (some 1) = some s1 ∧
        transform_body mac0 s1 (some 1) = some s2 ∧
        src_addr (s2.1.mem 1) ≠ src_addr (w0.mem 1) ∧
        dst_addr (s2.1.mem 1) ≠ dst_addr (w0.mem 1)) := by
  have key : ∀ (my_device : rte_ether_addr) (s : Exec) (b : Nat),
      ∃ s1 s2, transform_body my_device s (some b) = some s1 ∧
        transform_body my_device s1 (some b) = some s2 ∧
        src_addr (s2.1.mem b) = my_device ∧ dst_addr (s2.1.mem b) = my_device := by
    intro my_device s b
    obtain ⟨s1, h1, m1⟩ := transform_body_mem my_device s b
    obtain ⟨s2, h2, m2⟩ := transform_body_mem my_device s1 b
    refine ⟨s1, s2, h1, h2, ?_, ?_⟩
    · rw [m2, src_addr_mirror_hdr]
    · rw [m2, dst_addr_mirror_hdr, m1, src_addr_mirror_hdr]
  constructor
  · intro my_device s b
    obtain ⟨s1, s2, h1, h2, hs, hd⟩ := key my_device s b
    refine ⟨s1, s2, h1, h2, hs, hd, ?_⟩
    rw [hs, hd]
    constructor
    · rintro ⟨a, c⟩; exact ⟨a.symm, c.symm⟩
    · rintro ⟨a, c⟩; exact ⟨a.symm, c.symm⟩
  · obtain ⟨s1, s2, h1, h2, hs, hd⟩ := key mac0 (w0, []) 1
    refine ⟨s1, s2, h1, h2, ?_, ?_⟩
    · rw [hs]; decide
    · rw [hd]; decide

/-! ## Frame of the transform -/

/-- C10, frame of the multi-core Transform: on a received burst the transform
loop returns, and in every buffer it leaves every byte from offset 12 on (the
EtherType at 12-13 and the whole payload) and both length fields as they were;
a buffer outside the burst is not touched at all; the pool count is unchanged;
the only events of the loop are the stores into the two address fields of the
burst's buffers, and the batch a following transmit-burst submits is the burst
as received, same buffers in the same order. -/
theorem transform_frame (my_device : rte_ether_addr) (bufs : List MbufPtr) (n : Nat)
    (s : Exec) (h : RxBurst bufs n) :
    ∃ s1, for_bufs bufs 0 n (transform_body my_device) s = some s1 ∧
      (∀ b o, ETHER_TYPE_OFF ≤ o → (s1.1.mem b).data o = (s.1.mem b).data o) ∧
      (∀ b, (s1.1.mem b).data_len = (s.1.mem b).data_len ∧
        (s1.1.mem b).pkt_len = (s.1.mem b).pkt_len) ∧
      (∀ b, some b ∉ bufs.take n → s1.1.mem b = s.1.mem b) ∧
      s1.1.pool_avail = s.1.pool_avail ∧
      s1.2 = s.2 ++ hdr_events [SRC_ADDR_OFF, DST_ADDR_OFF] (bufs.take n) ∧
      (∀ q k w, 0 < n → ∃ s2, lcore_iteration q my_device bufs n k w = some s2 ∧
        tx_calls s2.2 = [(q, bufs.take n)] ∧ (bufs.take n).length = n) := by
  refine ⟨_, transform_loop_eq my_device bufs n s h, ?_, ?_, ?_, rfl, rfl, ?_⟩
  · intro b o ho
    show (mem_after (mirror_hdr my_device) bufs n s.1.mem b).data o = (s.1.mem b).data o
    by_cases hb : some b ∈ bufs.take n
    · rw [mem_after_of_mem _ _ _ _ _ hb]; exact data_mirror_hdr my_device _ o ho
    · rw [mem_after_of_not_mem _ _ _ _ _ hb]
  · intro b
    show (mem_after (mirror_hdr my_device) bufs n s.1.mem b).data_len = (s.1.mem b).data_len ∧
      (mem_after (mirror_hdr my_device) bufs n s.1.mem b).pkt_len = (s.1.mem b).pkt_len
    by_cases hb : some b ∈ bufs.take n
    · rw [mem_after_of_mem _ _ _ _ _ hb]; exact len_mirror_hdr my_device _
    · rw [mem_after_of_not_mem _ _ _ _ _ hb]; exact ⟨rfl, rfl⟩
  · intro b hb
    exact mem_after_of_not_mem _ _ _ _ _ hb
  · intro q k w hn
    refine ⟨_, lcore_iteration_eq q my_device bufs n k w h hn, ?_, ?_⟩
    · have e : ∀ (a : Event) (l : List Event), a :: l = [a] ++ l := fun _ _ => rfl
      simp only [tx_calls]
      rw [tx_calls_append, tx_calls_hdr_events, e (Event.tx_burst _ _ _), tx_calls_append,
        tx_calls_map_free]
      rfl
    · simp [Nat.min_eq_left h.2.1]

/-- Witness of `transform_frame` on a burst of two buffers. -/
theorem transform_frame_witness :
    RxBurst [some 1, some 2] 2 ∧
    ∃ s1, for_bufs [some 1, some 2] 0 2 (transform_body mac0) (w0, []) = some s1 ∧
      (∀ b o, ETHER_TYPE_OFF ≤ o →
        (s1.1.mem b).data o = ((w0, ([] : List Event)).1.mem b).data o) ∧
      (∀ b, (s1.1.mem b).data_len = ((w0, ([] : List Event)).1.mem b).data_len ∧
        (s1.1.mem b).pkt_len = ((w0, ([] : List Event)).1.mem b).pkt_len) ∧
      (∀ b, some b ∉ [some 1, some 2].take 2 →
        s1.1.mem b = (w0, ([] : List Event)).1.mem b) ∧
      s1.1.pool_avail = (w0, ([] : List Event)).1.pool_avail ∧
      s1.2 = (w0, ([] : List Event)).2 ++
        hdr_events [SRC_ADDR_OFF, DST_ADDR_OFF] ([some 1, some 2].take 2) ∧
      (∀ q k w, 0 < 2 → ∃ s2, lcore_iteration q mac0 [some 1, some 2] 2 k w = some s2 ∧
        tx_calls s2.2 = [(q, [some 1, some 2].take 2)] ∧
        ([some 1, some 2].take 2).length = 2) :=
  ⟨by decide, transform_frame mac0 [some 1, some 2] 2 (w0, []) (by decide)⟩

/-! ## Calls made to the port -/

theorem lcore_iteration_calls (q : Nat) (my_device : rte_ether_addr) (bufs : List MbufPtr)
    (n k : Nat) (w : World) (h : RxBurst bufs n) :
    ∃ s, lcore_iteration q my_device bufs n k w = some s ∧
      rx_calls s.2 = [q] ∧
      tx_calls s.2 = if n = 0 then [] else [(q, bufs.take n)] := by
  rcases Nat.eq_zero_or_pos n with h0 | hn
  · subst h0
    exact ⟨_, lcore_iteration_zero q my_device bufs k w, rfl, rfl⟩
  · have hn0 : n ≠ 0 := by omega
    have e : ∀ (a : Event) (l : List Event), a :: l = [a] ++ l := fun _ _ => rfl
    refine ⟨_, lcore_iteration_eq q my_device bufs n k w h hn, ?_, ?_⟩
    · simp only [rx_calls]
      rw [rx_calls_append, rx_calls_hdr_events, e (Event.tx_burst _ _ _), rx_calls_append,
        rx_calls_map_free]
      rfl
    · simp only [tx_calls, hn0, if_false]
      rw [tx_calls_append, tx_calls_hdr_events, e (Event.tx_burst _ _ _), tx_calls_append,
        tx_calls_map_free]
      rfl

/-- C8, no cross-core buffer migration: the forwarding loop of core `i`, run
over any number of iterations whose receive-bursts are well-formed, returns
after each of them; every receive-burst call it made was on queue `i`; its
transmit-burst calls are, in order, one per iteration with a non-empty burst,
each on queue `i` and submitting exactly the buffers that iteration received;
hence no transmit-burst call of core `i` is on a queue `j ≠ i`. -/
theorem no_cross_core_migration (i : Nat) (hi : i < 65536) (my_device : rte_ether_addr)
    (polls : List Poll) (w : World) (h : ∀ p ∈ polls, RxBurst p.bufs p.num_rx) :
    ∃ s, lcore_main_loop i my_device polls w = some s ∧
      rx_calls s.2 = polls.map (fun _ => i) ∧
      tx_calls s.2 = (polls.filter (fun p => decide (p.num_rx ≠ 0))).map
        (fun p => (i, p.bufs.take p.num_rx)) ∧
      ∀ j, j ≠ i → ∀ c ∈ tx_calls s.2, c.1 ≠ j := by
  have hq : queue_id_of i = i := Nat.mod_eq_of_lt hi
  have main : ∀ (polls : List Poll) (w : World), (∀ p ∈ polls, RxBurst p.bufs p.num_rx) →
      ∃ s, lcore_main_loop i my_device polls w = some s ∧
        rx_calls s.2 = polls.map (fun _ => i) ∧
        tx_calls s.2 = (polls.filter (fun p => decide (p.num_rx ≠ 0))).map
          (fun p => (i, p.bufs.take p.num_rx)) := by
    intro polls
    induction polls with
    | nil => intro w _; exact ⟨_, rfl, rfl, rfl⟩
    | cons p ps ih =>
      intro w hp
      obtain ⟨s1, hs1, hrx1, htx1⟩ := lcore_iteration_calls (queue_id_of i) my_device
        p.bufs p.num_rx p.num_tx w (hp p (List.mem_cons_self _ _))
      obtain ⟨s2, hs2, hrx2, htx2⟩ := ih s1.1 (fun r hr => hp r (List.mem_cons_of_mem _ hr))
      refine ⟨(s2.1, s1.2 ++ s2.2), ?_, ?_, ?_⟩
      · simp only [lcore_main_loop, hs1, hs2]
      · show rx_calls (s1.2 ++ s2.2) = _
        rw [rx_calls_append, hrx1, hrx2, hq]; rfl
      · show tx_calls (s1.2 ++ s2.2) = _
        rw [tx_calls_append, htx1, htx2, hq]
        by_cases h0 : p.num_rx = 0
        · simp [List.filter_cons, h0]
        · simp [List.filter_cons, h0]
  obtain ⟨s, hs, hrx, htx⟩ := main polls w h
  refine ⟨s, hs, hrx, htx, ?_⟩
  intro j hj c hc
  rw [htx] at hc
  obtain ⟨p, _, rfl⟩ := List.mem_map.mp hc
  exact fun e => hj e.symm

/-- Witness of `no_cross_core_migration`: core 2, an iteration with one buffer
received and none accepted, an idle iteration, then two buffers received. -/
theorem no_cross_core_migration_witness :
    (2 < 65536) ∧
    (∀ p ∈ [Poll.mk [some 1] 1 0, Poll.mk [] 0 0, Poll.mk [some 4, some 5] 2 2],
      RxBurst p.bufs p.num_rx) ∧
    ∃ s, lcore_main_loop 2 mac0
        [Poll.mk [some 1] 1 0, Poll.mk [] 0 0, Poll.mk [some 4, some 5] 2 2] w0 = some s ∧
      rx_calls s.2
        = [Poll.mk [some 1] 1 0, Poll.mk [] 0 0, Poll.mk [some 4, some 5] 2 2].map
            (fun _ => 2) ∧
      tx_calls s.2
        = ([Poll.mk [some 1] 1 0, Poll.mk [] 0 0, Poll.mk [some 4, some 5] 2 2].filter
            (fun p => decide (p.num_rx ≠ 0))).map (fun p => (2, p.bufs.take p.num_rx)) ∧
      ∀ j, j ≠ 2 → ∀ c ∈ tx_calls s.2, c.1 ≠ j :=
  ⟨by decide, by decide,
    no_cross_core_migration 2 (by decide) mac0
      [Poll.mk [some 1] 1 0, Poll.mk [] 0 0, Poll.mk [some 4, some 5] 2 2] w0 (by decide)⟩

/-! ## Order of the phases -/

/-- C9, single transmit, no retry, fixed phase order: an iteration of
`lcore_main_loop` that received `n > 0` buffers returns, and its events are the
receive-burst call, then the header stores on all `n` buffers, then one
transmit-burst call submitting the `n` received buffers in the order received,
then only releases (of the buffers at positions `k .. n-1`): the transmit call
is the only one, no buffer is released before it, and after it there is neither
a header store nor another transmit-burst call. -/
theorem single_transmit_phase_order (q : Nat) (my_device : rte_ether_addr)
    (bufs : List MbufPtr) (n k : Nat) (w : World) (h : RxBurst bufs n) (hn : 0 < n) :
    ∃ s pre post, lcore_iteration q my_device bufs n k w = some s ∧
      s.2 = pre ++ Event.tx_burst PORT_ID q (bufs.take n) :: post ∧
      (bufs.take n).length = n ∧
      tx_calls s.2 = [(q, bufs.take n)] ∧
      pre = Event.rx_burst PORT_ID q BURST_SIZE ::
        hdr_events [SRC_ADDR_OFF, DST_ADDR_OFF] (bufs.take n) ∧
      (∀ i, i < n → ∃ b, bufs[i]? = some (some b) ∧ b ∈ stored pre) ∧
      released pre = [] ∧ tx_calls pre = [] ∧
      post = ((bufs.take n).drop k).map Event.pktmbuf_free ∧
      stored post = [] ∧ tx_calls post = [] ∧
      (released post).map some = (bufs.take n).drop k := by
  have hdrop : ∀ p ∈ (bufs.take n).drop k, p ≠ none :=
    fun p hp => h.2.2.1 p (List.mem_of_mem_drop hp)
  have e : ∀ (a : Event) (l : List Event), a :: l = [a] ++ l := fun _ _ => rfl
  obtain ⟨s, hs, _, htx⟩ := lcore_iteration_calls q my_device bufs n k w h
  have hn0 : n ≠ 0 := by omega
  rw [if_neg hn0] at htx
  have heq := lcore_iteration_eq q my_device bufs n k w h hn
  rw [hs] at heq
  refine ⟨s, _, _, hs, ?_, ?_, htx, rfl, ?_, ?_, ?_, rfl, ?_, ?_, ?_⟩
  · rw [Option.some.inj heq]; rfl
  · simp [Nat.min_eq_left h.2.1]
  · intro i hi
    obtain ⟨b, hb, hmem⟩ := h.entry hi
    refine ⟨b, hb, ?_⟩
    rw [e (Event.rx_burst _ _ _), stored_append]
    exact List.mem_append_right _ (stored_hdr_events _ _ _ b hmem)
  · rw [e (Event.rx_burst _ _ _), released_append, released_hdr_events]; rfl
  · rw [e (Event.rx_burst _ _ _), tx_calls_append, tx_calls_hdr_events]; rfl
  · exact stored_map_free _
  · exact tx_calls_map_free _
  · exact released_map_free _ hdrop

/-- Witness of `single_transmit_phase_order`: three buffers received, one
accepted. -/
theorem single_transmit_phase_order_witness :
    RxBurst [some 1, some 2, some 3] 3 ∧ 0 < 3 ∧
    ∃ s pre post, lcore_iteration 0 mac0 [some 1, some 2, some 3] 3 1 w0 = some s ∧
      s.2 = pre ++ Event.tx_burst PORT_ID 0 ([some 1, some 2, some 3].take 3) :: post ∧
      ([some 1, some 2, some 3].take 3).length = 3 ∧
      tx_calls s.2 = [(0, [some 1, some 2, some 3].take 3)] ∧
      pre = Event.rx_burst PORT_ID 0 BURST_SIZE ::
        hdr_events [SRC_ADDR_OFF, DST_ADDR_OFF] ([some 1, some 2, some 3].take 3) ∧
      (∀ i, i < 3 → ∃ b, [some 1, some 2, some 3][i]? = some (some b) ∧ b ∈ stored pre) ∧
      released pre = [] ∧ tx_calls pre = [] ∧
      post = (([some 1, some 2, some 3].take 3).drop 1).map Event.pktmbuf_free ∧
      stored post = [] ∧ tx_calls post = [] ∧
      (released post).map some = ([some 1, some 2, some 3].take 3).drop 1 :=
  ⟨by decide, by decide,
    single_transmit_phase_order 0 mac0 [some 1, some 2, some 3] 3 1 w0 (by decide) (by decide)⟩

/-! ## Queue assignment -/

theorem polled_queues_zero_based (n : Nat) (hn : n ≤ 65536) :
    polled_queues (List.range n) = provisioned_queues n := by
  unfold polled_queues provisioned_queues
  have : ∀ i ∈ List.range n, queue_id_of i = id i := by
    intro i hi
    have := List.mem_range.mp hi
    exact Nat.mod_eq_of_lt (by omega)
  rw [List.map_congr_left this, List.map_id]

theorem polled_queues_nodup (lcores : List Nat) (hnd : lcores.Nodup)
    (hlt : ∀ c ∈ lcores, c < 65536) : (polled_queues lcores).Nodup := by
  unfold polled_queues
  have : ∀ c ∈ lcores, queue_id_of c = id c := fun c hc => Nat.mod_eq_of_lt (hlt c hc)
  rw [List.map_congr_left this, List.map_id]
  exact hnd

/-- C3 on the core set `{1, 2}` (EAL option `-l 1-2`): `main` provisions the
queue pairs `0` and `1`, the two loops poll the queues `1` and `2`; queue `2`
is polled without being provisioned and the provisioned queue `0` is polled by
no core, so the map from cores to queues is not onto the provisioned queue
pairs. -/
theorem queue_assignment_not_onto :
    polled_queues [1, 2] = [1, 2] ∧
    provisioned_queues [1, 2].length = [0, 1] ∧
    2 ∈ polled_queues [1, 2] ∧ 2 ∉ provisioned_queues [1, 2].length ∧
    0 ∈ provisioned_queues [1, 2].length ∧ 0 ∉ polled_queues [1, 2] := by
  decide

/-! ## Single-core against multi-core -/

/-- C4 on one received frame (`pkt0` in buffer 1, device address `mac0`, all of
the burst accepted): both loops return, submit the same batch and release the
same buffers, but the single-core loop leaves the frame as it was (source
`bb:..`, destination `aa:..`) while the multi-core loop on queue 0 rewrites it
(source `mac0`, destination `bb:..`): the buffer contents differ. -/
theorem single_core_differs_from_multi_core :
    ∃ s t, single_iteration mac0 [some 1] 1 1 w0 = some s ∧
      lcore_iteration 0 mac0 [some 1] 1 1 w0 = some t ∧
      s.1.mem 1 = pkt0 ∧
      src_addr (s.1.mem 1) = src_addr pkt0 ∧ dst_addr (s.1.mem 1) = dst_addr pkt0 ∧
      src_addr (t.1.mem 1) = mac0 ∧ dst_addr (t.1.mem 1) = src_addr pkt0 ∧
      src_addr (s.1.mem 1) ≠ src_addr (t.1.mem 1) ∧
      dst_addr (s.1.mem 1) ≠ dst_addr (t.1.mem 1) ∧
      tx_calls s.2 = tx_calls t.2 ∧ released s.2 = released t.2 := by
  have hb : RxBurst [some 1] 1 := by decide
  have hm : some 1 ∈ [(some 1 : MbufPtr)].take 1 := by decide
  have ms : mem_after (single_hdr mac0) [some 1] 1 w0.mem 1 = pkt0 := by
    rw [mem_after_of_mem _ _ _ _ _ hm, single_hdr_id]; rfl
  have mt : mem_after (mirror_hdr mac0) [some 1] 1 w0.mem 1 = mirror_hdr mac0 pkt0 := by
    rw [mem_after_of_mem _ _ _ _ _ hm]; rfl
  refine ⟨_, _, single_iteration_eq mac0 [some 1] 1 1 w0 hb (by decide),
    lcore_iteration_eq 0 mac0 [some 1] 1 1 w0 hb (by decide), ms, ?_, ?_, ?_, ?_, ?_, ?_,
    rfl, rfl⟩
  · show src_addr (mem_after (single_hdr mac0) [some 1] 1 w0.mem 1) = _
    rw [ms]
  · show dst_addr (mem_after (single_hdr mac0) [some 1] 1 w0.mem 1) = _
    rw [ms]
  · show src_addr (mem_after (mirror_hdr mac0) [some 1] 1 w0.mem 1) = _
    rw [mt, src_addr_mirror_hdr]
  · show dst_addr (mem_after (mirror_hdr mac0) [some 1] 1 w0.mem 1) = _
    rw [mt, dst_addr_mirror_hdr]
  · show src_addr (mem_after (single_hdr mac0) [some 1] 1 w0.mem 1)
      ≠ src_addr (mem_after (mirror_hdr mac0) [some 1] 1 w0.mem 1)
    rw [ms, mt, src_addr_mirror_hdr]; decide
  · show dst_addr (mem_after (single_hdr mac0) [some 1] 1 w0.mem 1)
      ≠ dst_addr (mem_after (mirror_hdr mac0) [some 1] 1 w0.mem 1)
    rw [ms, mt, dst_addr_mirror_hdr]; decide

end L2Echo
